import Mathlib

/-!
Verification of the octotree adapter layer (`src/adapters/adapter.js`).

This file gives a shallow embedding of the two core pieces of the adapter:

* the tree builder `_loadCodeTreeInternal` (lines 20-168): conversion of a
  flat entry list into a bucket map keyed by parent-directory path, processed
  in chunks of 300 entries, with per-entry rendering (HTML-escaped labels,
  patch badges, percent-encoded hrefs, submodule URL normalization);
* the error classifier `_handleError` (lines 174-237).

JS strings are modelled as `List Char` (lists of Unicode scalar values); JS
objects that may lack a field use `Option`. The mutable `folders` object is
modelled as an insertion-ordered association list, and the per-entry mutation
of `item` is modelled by pure rendering functions. Every definition is
translated from the source; nothing is simplified away.
-/

namespace Octotree

/-- JS strings, modelled as lists of Unicode scalar values. -/
abbrev Str := List Char

/-- Substring test: `hasSub hay needle` models `hay.indexOf(needle) !== -1`. -/
def hasSub : Str → Str → Bool
  | [], needle => needle.isEmpty
  | c :: rest, needle => needle.isPrefixOf (c :: rest) || hasSub rest needle

/-- Splits a string at its LAST `'/'`:
`lastSplit p = (p.substring(0, p.lastIndexOf('/')), p.substring(p.lastIndexOf('/') + 1))`,
with the JS convention that a missing `'/'` (`lastIndexOf = -1`) yields
`("", p)` (`substring(0, -1)` clamps to the empty string). -/
def lastSplit : Str → Str × Str
  | [] => ([], [])
  | c :: cs =>
    if '/' ∈ cs then ((c :: (lastSplit cs).1), (lastSplit cs).2)
    else if c = '/' then ([], cs)
    else ([], c :: cs)

/-- Parent-directory key of a path: `path.substring(0, path.lastIndexOf('/'))`
(line 111 of the source). -/
def parentOf (p : Str) : Str := (lastSplit p).1

/-- Leaf name of a path: `path.substring(path.lastIndexOf('/') + 1)` (line 59). -/
def leafOf (p : Str) : Str := (lastSplit p).2

/-- HTML escaping of one character, as performed by
`$dummyDiv.text(...).html()` on line 59 (escapes `&`, `<`, `>`). -/
def htmlEscapeChar (c : Char) : Str :=
  if c = '&' then "&amp;".data
  else if c = '<' then "&lt;".data
  else if c = '>' then "&gt;".data
  else [c]

/-- HTML escaping of a string (line 59). -/
def htmlEscape (s : Str) : Str := s.flatMap htmlEscapeChar

/-- Decimal rendering of a JS number holding a natural value. -/
def natStr (n : Nat) : Str := (toString n).data

/-- JS string interpolation of a possibly-`undefined` string value:
`undefined` prints as `"undefined"`. -/
def jsStr : Option Str → Str
  | some s => s
  | none => "undefined".data

/-- JS string interpolation of a possibly-`undefined` number. -/
def optNatStr : Option Nat → Str
  | some n => natStr n
  | none => "undefined".data

/-! ### Percent encoding (`encodeURIComponent` / `decodeURIComponent`)

Line 130-133 of the source builds the item href by percent-encoding each
`/`-separated path segment with `encodeURIComponent` and rejoining with `/`.
`encodeURIComponent` leaves the unreserved characters
`A-Z a-z 0-9 - _ . ! ~ * ' ( )` alone and replaces every other character by
the `%XX` (uppercase hex) encoding of its UTF-8 bytes. -/

/-- Characters that `encodeURIComponent` leaves unescaped. -/
def isUnreservedChar (c : Char) : Bool :=
  let n := c.toNat
  (65 ≤ n && n ≤ 90) || (97 ≤ n && n ≤ 122) || (48 ≤ n && n ≤ 57) ||
  n == 45 || n == 95 || n == 46 || n == 33 || n == 126 ||
  n == 42 || n == 39 || n == 40 || n == 41

/-- Uppercase hex digit for a value below 16. -/
def hexDigitChar (d : Nat) : Char :=
  if d < 10 then Char.ofNat (48 + d) else Char.ofNat (55 + d)

/-- UTF-8 bytes of a Unicode scalar value. -/
def utf8Bytes (n : Nat) : List Nat :=
  if n < 128 then [n]
  else if n < 2048 then [192 + n / 64, 128 + n % 64]
  else if n < 65536 then [224 + n / 4096, 128 + n / 64 % 64, 128 + n % 64]
  else [240 + n / 262144, 128 + n / 4096 % 64, 128 + n / 64 % 64, 128 + n % 64]

/-- Percent-encoding of one byte, e.g. `32 ↦ "%20"`. -/
def byteHex (b : Nat) : Str := ['%', hexDigitChar (b / 16), hexDigitChar (b % 16)]

/-- Encoding of one character under `encodeURIComponent`. -/
def encodeChar (c : Char) : Str :=
  if isUnreservedChar c then [c]
  else ((utf8Bytes c.toNat).map byteHex).flatten

/-- Model of JS `encodeURIComponent` on a (valid) string. -/
def encodeURIComponent (s : Str) : Str := (s.map encodeChar).flatten

/-- Value of a hex digit character (both cases accepted, as in JS). -/
def hexVal (c : Char) : Option Nat :=
  let n := c.toNat
  if 48 ≤ n ∧ n ≤ 57 then some (n - 48)
  else if 65 ≤ n ∧ n ≤ 70 then some (n - 65 + 10)
  else if 97 ≤ n ∧ n ≤ 102 then some (n - 97 + 10)
  else none

/-- Intermediate token of percent-decoding: either a plain character or a
byte produced by a `%XX` escape. -/
inductive UriToken where
  | chr (c : Char)
  | byte (b : Nat)
deriving DecidableEq

mutual

/-- First phase of `decodeURIComponent`: turn every `%XX` escape into a
byte token, pass other characters through; a malformed escape fails
(JS `URIError`). -/
def uriTokens : Str → Option (List UriToken)
  | [] => some []
  | c :: rest =>
    if c = '%' then uriPercent rest else (uriTokens rest).map (UriToken.chr c :: ·)

/-- Reading of the two hex digits following a `%`. -/
def uriPercent : Str → Option (List UriToken)
  | h1 :: h2 :: rest =>
    (match hexVal h1, hexVal h2 with
     | some a, some b => (uriTokens rest).map (UriToken.byte (16 * a + b) :: ·)
     | _, _ => none)
  | _ => none

end

/-- Second phase of `decodeURIComponent`: UTF-8 decoding of the byte tokens,
one token at a time. The state carries, inside a multi-byte sequence, the
accumulated code-point bits, the number of continuation bytes still
expected, and the smallest code point the sequence length may encode (for
the overlong check); at the end of a sequence the code point must be at
least that minimum, below `0x110000`, and not a surrogate — otherwise
decoding fails (JS `URIError`). -/
def parseLoop : Option (Nat × Nat × Nat) → List UriToken → Option Str
  | none, [] => some []
  | some _, [] => none
  | none, UriToken.chr c :: rest => (parseLoop none rest).map (c :: ·)
  | none, UriToken.byte b :: rest =>
    if b < 128 then (parseLoop none rest).map (Char.ofNat b :: ·)
    else if 192 ≤ b ∧ b < 224 then parseLoop (some (b - 192, 1, 128)) rest
    else if 224 ≤ b ∧ b < 240 then parseLoop (some (b - 224, 2, 2048)) rest
    else if 240 ≤ b ∧ b < 248 then parseLoop (some (b - 240, 3, 65536)) rest
    else none
  | some _, UriToken.chr _ :: _ => none
  | some (acc, need, minCp), UriToken.byte b :: rest =>
    if 128 ≤ b ∧ b < 192 then
      if need = 1 then
        if minCp ≤ acc * 64 + (b - 128) ∧ acc * 64 + (b - 128) < 1114112 ∧
            ¬(55296 ≤ acc * 64 + (b - 128) ∧ acc * 64 + (b - 128) ≤ 57343) then
          (parseLoop none rest).map (Char.ofNat (acc * 64 + (b - 128)) :: ·)
        else none
      else parseLoop (some (acc * 64 + (b - 128), need - 1, minCp)) rest
    else none

def parseUriTokens (ts : List UriToken) : Option Str := parseLoop none ts

/-- Model of JS `decodeURIComponent` (returns `none` where JS throws). -/
def decodeURIComponent (s : Str) : Option Str := (uriTokens s).bind parseUriTokens

/-- Encoded form of a path as built on lines 130-133: split on `/`, encode
each segment with `encodeURIComponent`, rejoin with literal `/`. -/
def encodedPathOf (path : Str) : Str :=
  List.intercalate ['/'] ((path.splitOn '/').map encodeURIComponent)

/-! ### Error classifier (`_handleError`, lines 174-237) -/

/-- Response-header fragment whose presence marks an exhausted rate limit
(line 212: `jqXHR.getAllResponseHeaders().indexOf('X-RateLimit-Remaining: 0')`). -/
def rateLimitMark : Str := "X-RateLimit-Remaining: 0".data

/-- Message for status 0 (lines 181-183, a template literal spanning
three lines of the source file, indentation included). -/
def connectionErrorMessage : Str :=
  ("Cannot connect to website.\n" ++
   "          If your network connection to this website is fine, maybe there is an outage of the API.\n" ++
   "          Please try again later.").data

/-- Message for status 206 (line 191). The source's follow-up sentence
`'If you frequently work with this repository, go to the ... and uncheck the
"Load entire tree at once" option.'` on lines 192-194 is an expression
statement of its own (the assignment ends with `;` on line 191), so it is
never appended to the message — the delivered message is only this string. -/
def repoTooLargeMessage : Str :=
  "This repository is too large to load in a single request. ".data

/-- Message for statuses 404 and plain 403 (lines 207-209 and 221-223). -/
def privateRepoMessage : Str :=
  ("Accessing private repositories requires a GitHub access token. " ++
   "Please go to <a class=\"settings-btn\" href=\"javascript:void(0)\">Settings</a> and enter a token.").data

/-- Message for a rate-limited 403 (lines 215-218). -/
def apiLimitMessage : Str :=
  ("You have exceeded the <a href=\"https://developer.github.com/v3/#rate-limiting\">GitHub API rate limit</a>. " ++
   "To continue using Octotree, you need to provide a GitHub access token. " ++
   "Please go to <a class=\"settings-btn\" href=\"javascript:void(0)\">Settings</a> and enter a token.").data

/-- Model of `_handleError` (lines 174-237). `getInvalidTokenMessage` is the
host-supplied formatter `octotree.getInvalidTokenMessage` (an external
collaborator), `respHeaders` models `jqXHR.getAllResponseHeaders()`,
`reqHeaders` models `settings.headers`, `statusText` models
`jqXHR.statusText`. Returns the `{error, message}` pair passed to `cb`;
note line 234 prefixes the error with `"Error: "`. -/
def handleError (getInvalidTokenMessage : Nat → Str → Str)
    (status : Nat) (respHeaders reqHeaders statusText : Str) : Str × Str :=
  let p : Str × Str :=
    if status = 0 then ("Connection error".data, connectionErrorMessage)
    else if status = 409 then ("Empty repository".data, "This repository is empty.".data)
    else if status = 206 then ("Repo too large".data, repoTooLargeMessage)
    else if status = 401 then ("Invalid token".data, getInvalidTokenMessage status reqHeaders)
    else if status = 404 then ("Private repository".data, privateRepoMessage)
    else if status = 403 then
      if hasSub respHeaders rateLimitMark then ("API limit exceeded".data, apiLimitMessage)
      else ("Forbidden".data, privateRepoMessage)
    else (statusText, statusText)
  ("Error: ".data ++ p.1, p.2)

/-! ### Data model of the tree builder -/

/-- Entry types reported by the hosting API. -/
inductive EntryType where
  | blob
  | tree
  | commit
deriving DecidableEq

/-- Patch actions (line 79: `switch (item.patch.action)`); `other` stands
for any value hitting the `default` branch. -/
inductive PatchAction where
  | added
  | renamed
  | removed
  | other
deriving DecidableEq

/-- Diff metadata optionally attached to an entry (`item.patch`). -/
structure PatchInfo where
  action : PatchAction
  previous : Option Str
  filesChanged : Option Nat
  additions : Option Nat
  deletions : Option Nat
  diffId : Option Nat
deriving DecidableEq

/-- One raw entry of the fetched tree listing. -/
structure TreeEntry where
  path : Str
  type : EntryType
  sha : Option Str
  url : Option Str
  patch : Option PatchInfo
deriving DecidableEq

/-- The `a_attr` of a rendered node (`href`, `data-download-url`,
`data-download-filename`); the commit branch (line 157) sets only `href`. -/
structure AAttr where
  href : Str
  downloadUrl : Option Str
  downloadFilename : Option Str
deriving DecidableEq

/-- An entry after rendering. The eager children of a `tree` node are not
stored here: line 117 aliases `item.children` with the bucket
`folders[item.path]`, so the children are exactly the contents of that
bucket in the final bucket map. `childrenLazy` records `item.children = true`
(line 116, lazy single-node expansion). -/
structure RenderedNode where
  path : Str
  id : Str
  text : Str
  icon : Str
  childrenLazy : Bool
  a_attr : Option AAttr
deriving DecidableEq

/-- Repository context (`opts.repo`). -/
structure Repo where
  username : Str
  reponame : Str
  branch : Str
  pullNumber : Option Nat

/-- The lazily-expanded node (`opts.node`), when present. -/
structure NodeInfo where
  path : Option Str
deriving DecidableEq

/-- Ambient data of one build invocation: the option fields of `opts`,
the subclass `transform` callback, and the external collaborators read by
the per-entry conversion (`NODE_PREFIX`, `this.store.get(STORE.ICONS)`,
`FileIcons.getClassWithColor`, `window.location.protocol`, and the
submodule map delivered by `_getSubmodules`). -/
structure Env where
  transform : TreeEntry → TreeEntry
  node : Option NodeInfo
  repo : Repo
  encodedBranch : Str
  nodePrefix : Str
  storeIcons : Bool
  fileIconClass : Str → Option Str
  protocol : Str
  submodules : Str → Option Str

/-- String form of an entry type, as used for icon and href building. -/
def typeStr : EntryType → Str
  | .blob => "blob".data
  | .tree => "tree".data
  | .commit => "commit".data

/-- Icon computation (lines 65-74): the type name, plus for blobs a
file-type class from the icon resolver (`|| 'file-generic'` fallback; the
resolver is consulted only when the icons preference is on). -/
def iconOf (env : Env) (ty : EntryType) (name : Str) : Str :=
  match ty with
  | .blob =>
    "blob ".data ++
      (if env.storeIcons then
        (match env.fileIconClass name with
         | some cls => if cls = [] then "file-generic".data else cls
         | none => "file-generic".data)
      else "file-generic".data)
  | t => typeStr t

/-- Action badge of the patch HTML (lines 79-91): added/renamed/removed,
the latter two carrying the previous path as tooltip (interpolated
verbatim; an absent `previous` prints `undefined`); the `default` branch
contributes nothing. -/
def actionBadge (p : PatchInfo) : Str :=
  match p.action with
  | .added => "<span class=\"text-green\">added</span>".data
  | .renamed =>
    "<span class=\"text-green\" title=\"".data ++ jsStr p.previous ++ "\">renamed</span>".data
  | .removed =>
    "<span class=\"text-red\" title=\"".data ++ jsStr p.previous ++ "\">removed</span>".data
  | .other => []

/-- File-count badge (lines 93-96): rendered only when `filesChanged` is
truthy (present and nonzero), pluralized. -/
def filesBadge (p : PatchInfo) : Str :=
  match p.filesChanged with
  | some n =>
    if n ≠ 0 then
      "<span>".data ++ natStr n ++ " ".data ++
        (if n = 1 then "file".data else "files".data) ++ "</span>".data
    else []
  | none => []

/-- Additions badge (lines 98-100): the guard is `!== 0`, which an absent
(`undefined`) count passes — rendering the literal text `+undefined`. -/
def additionsBadge (p : PatchInfo) : Str :=
  match p.additions with
  | some n =>
    if n ≠ 0 then "<span class=\"text-green\">+".data ++ natStr n ++ "</span>".data else []
  | none => "<span class=\"text-green\">+undefined</span>".data

/-- Deletions badge (lines 101-103): same `!== 0` guard as additions. -/
def deletionsBadge (p : PatchInfo) : Str :=
  match p.deletions with
  | some n =>
    if n ≠ 0 then "<span class=\"text-red\">-".data ++ natStr n ++ "</span>".data else []
  | none => "<span class=\"text-red\">-undefined</span>".data

/-- Full patch badge HTML (lines 76-105): `patch_html` accumulates the four
components with `+=` in source order. -/
def patchBadges (p : PatchInfo) : Str :=
  actionBadge p ++ filesBadge p ++ additionsBadge p ++ deletionsBadge p

/-- Item href (`_getItemHref`, line 372):
`/{username}/{reponame}/{type}/{encodedBranch}/{encodedPath}`. -/
def getItemHref (repo : Repo) (ty : EntryType) (encodedPath encodedBranch : Str) : Str :=
  "/".data ++ repo.username ++ "/".data ++ repo.reponame ++ "/".data ++ typeStr ty ++
    "/".data ++ encodedBranch ++ "/".data ++ encodedPath

/-- Patch href (`_getPatchHref`, line 379):
`/{username}/{reponame}/pull/{pullNumber}/files#diff-{diffId}`. -/
def getPatchHref (repo : Repo) (diffId : Nat) : Str :=
  "/".data ++ repo.username ++ "/".data ++ repo.reponame ++ "/pull/".data ++
    optNatStr repo.pullNumber ++ "/files#diff-".data ++ natStr diffId

/-- Scheme rewriting for GitHub-hosted submodules (line 149):
`replace(/^git(:\/\/|@)/, window.location.protocol + '//')`. -/
def schemeRewrite (protocol url : Str) : Str :=
  if "git://".data.isPrefixOf url then protocol ++ "//".data ++ url.drop 6
  else if "git@".data.isPrefixOf url then protocol ++ "//".data ++ url.drop 4
  else url

/-- First-occurrence plain-string replacement, as used on line 150:
`replace('github.com:', 'github.com/')`. -/
def replaceFirst : Str → Str → Str → Str
  | [], _, _ => []
  | c :: rest, needle, repl =>
    if needle.isPrefixOf (c :: rest) then repl ++ (c :: rest).drop needle.length
    else c :: replaceFirst rest needle repl

/-- Characters the JS regex `.` does NOT match (line terminators). -/
def isRegexDot (c : Char) : Bool :=
  !(c = Char.ofNat 10 || c = Char.ofNat 13 || c = Char.ofNat 8232 || c = Char.ofNat 8233)

/-- Suffix stripping of line 151: `replace(/.git$/, '')`. The pattern's dot
matches ANY character except a line terminator, so any URL ending in some
such character followed by the three letters `git` loses its last FOUR
characters; anchored at the end, the only possible match site is the tail. -/
def stripGitSuffix (u : Str) : Str :=
  match u.reverse with
  | 't' :: 'i' :: 'g' :: c :: rest => if isRegexDot c then rest.reverse else u
  | _ => u

/-- Full submodule URL normalization for GitHub-hosted submodules
(lines 148-151). -/
def normalizeModuleUrl (protocol url : Str) : Str :=
  stripGitSuffix (replaceFirst (schemeRewrite protocol url) "github.com:".data "github.com/".data)

/-- Per-entry conversion (lines 56-159), applied to the entry AFTER the
`transform` callback and lazy-path prefixing: computes `id`, escaped `text`
with patch badges, `icon`, `a_attr`, the lazy-children flag, and the
submodule link rewriting for `commit` entries. -/
def renderItem (env : Env) (item : TreeEntry) : RenderedNode :=
  let path := item.path
  let name := htmlEscape (leafOf path)
  let baseText :=
    name ++ (match item.patch with
      | some p => "<span class=\"patch\">".data ++ patchBadges p ++ "</span>".data
      | none => [])
  let icon := iconOf env item.type name
  let idStr := env.nodePrefix ++ path
  match item.type with
  | .commit =>
    (match env.submodules path with
     | some moduleUrl =>
       if moduleUrl = [] then
         { path := path, id := idStr, text := baseText, icon := icon,
           childrenLazy := false, a_attr := none }
       else if hasSub moduleUrl "github.com".data then
         let mu := normalizeModuleUrl env.protocol moduleUrl
         { path := path, id := idStr,
           text :=
             "<a href=\"".data ++ mu ++ "\" class=\"jstree-anchor\">".data ++ name ++
               "</a>".data ++ "<span>@ </span>".data ++
               "<a href=\"".data ++ mu ++ "/tree/".data ++ jsStr item.sha ++
               "\" class=\"jstree-anchor\">".data ++ (jsStr item.sha).take 7 ++ "</a>".data,
           icon := icon, childrenLazy := false, a_attr := some ⟨mu, none, none⟩ }
       else
         { path := path, id := idStr, text := baseText, icon := icon,
           childrenLazy := false, a_attr := some ⟨moduleUrl, none, none⟩ }
     | none =>
       { path := path, id := idStr, text := baseText, icon := icon,
         childrenLazy := false, a_attr := none })
  | ty =>
    let u := getItemHref env.repo ty (encodedPathOf path) env.encodedBranch
    let plainA : AAttr := ⟨u, some u, some name⟩
    let a : AAttr :=
      match item.patch with
      | some p =>
        (match p.diffId with
         | some d => ⟨getPatchHref env.repo d, item.url, some name⟩
         | none => plainA)
      | none => plainA
    { path := path, id := idStr, text := baseText, icon := icon,
      childrenLazy := (ty == EntryType.tree) && env.node.isSome, a_attr := some a }

/-! ### The bucket map (`folders`) and the processing loop -/

/-- The `folders` object TOGETHER with the arrays it has ever pointed at:
an association list in NEWEST-FIRST order. The first occurrence of a key
is the object's current binding; older occurrences of the same key are
arrays that a later `folders[path] = item.children = []` (line 117)
shadowed in the object but that remain live in the JS heap, aliased as the
`children` of the tree node processed when they were created. -/
abbrev Folders := List (Str × List RenderedNode)

/-- Property read `folders[key]`: the value of the key's CURRENT binding,
i.e. its first (newest) occurrence; `undefined` when the key is absent. -/
def getVal : Folders → Str → Option (List RenderedNode)
  | [], _ => none
  | (k, v) :: rest, key => if k = key then some v else getVal rest key

/-- In-place mutation of the array behind the key's current binding
(`folders[key].push(...)`, line 109/111): replaces the value of the first
(newest) occurrence of the key. (The absent-key fallback is never reached:
the model only writes to a key it has just read successfully.) -/
def setVal : Folders → Str → List RenderedNode → Folders
  | [], key, v => [(key, v)]
  | (k, w) :: rest, key, v =>
    if k = key then (k, v) :: rest else (k, w) :: setVal rest key v

/-- Entry preprocessing of lines 47-54: apply the subclass `transform`,
then, when lazily expanding a node that has a (truthy) path, prefix the
entry path with the node path. -/
def prep (env : Env) (e : TreeEntry) : TreeEntry :=
  let e1 := env.transform e
  match env.node with
  | some n =>
    (match n.path with
     | some np => if np.isEmpty then e1 else { e1 with path := np ++ '/' :: e1.path }
     | none => e1)
  | none => e1

/-- Bucket key an entry is routed to (lines 108-112): the single flat root
bucket when expanding a lazy node, otherwise the parent-directory key. -/
def routeKey (env : Env) (e : TreeEntry) : Str :=
  if env.node.isSome then [] else parentOf (prep env e).path

/-- The rendered node produced for an input entry. -/
def procItem (env : Env) (e : TreeEntry) : RenderedNode := renderItem env (prep env e)

/-- Whether processing an entry registers a new bucket (lines 114-117):
only a `tree` entry during a full (non-lazy) build. -/
def registers (env : Env) (e : TreeEntry) : Prop :=
  (prep env e).type = EntryType.tree ∧ env.node = none

instance (env : Env) (e : TreeEntry) : Decidable (registers env e) := by
  unfold registers; infer_instance

/-- Processing of one entry (the body of the `for` loop, lines 39-159):
render the entry, push it onto the bucket selected by `routeKey` —
`undefined.push` on a missing bucket throws, modelled as `none` — then, for
a `tree` entry of a full build, register a fresh empty bucket: line 117's
`folders[item.path] = item.children = []` binds the key to a NEW array
(prepended, becoming the key's current binding) while any previously bound
array stays in the state, still aliased as the children of the tree node
whose processing created it. -/
def step (env : Env) (F : Folders) (e : TreeEntry) : Option Folders :=
  match getVal F (routeKey env e) with
  | none => none
  | some bucket =>
    if registers env e then
      some (((prep env e).path, []) :: setVal F (routeKey env e) (bucket ++ [procItem env e]))
    else some (setVal F (routeKey env e) (bucket ++ [procItem env e]))

/-- Initial bucket map (line 21): `{'': []}`. -/
def initFolders : Folders := [([], [])]

/-- Processing all entries in one sequential pass (the reference semantics:
what the loop does ignoring chunk boundaries). -/
def buildSeq (env : Env) (entries : List TreeEntry) : Option Folders :=
  entries.foldlM (step env) initFolders

/-- The fixed chunk size (line 36: `const CHUNK_SIZE = 300`). -/
def CHUNK : Nat := 300

/-- The `nextChunk` recursion (lines 35-165): process up to `CHUNK` entries
of the remaining list, then — after a `setTimeout` yield, which carries no
data beyond the shared state — continue with the rest; when the index runs
past the end the current bucket map is delivered. -/
def runChunks (env : Env) (rem : List TreeEntry) (F : Folders) : Option Folders :=
  match (rem.take CHUNK).foldlM (step env) F with
  | none => none
  | some G => if CHUNK < rem.length then runChunks env (rem.drop CHUNK) G else some G
termination_by rem.length
decreasing_by simp only [List.length_drop, CHUNK] at *; omega

/-- Chunked processing of the whole entry list, starting from `{'': []}`. -/
def buildChunked (env : Env) (entries : List TreeEntry) : Option Folders :=
  runChunks env entries initFolders

/-- Total number of rendered nodes held in the buckets. -/
def sumSizes (F : Folders) : Nat := (F.map (fun kv => kv.2.length)).sum

/-- All nodes ever pushed under a given parent key, across that key's
successive bucket generations, in push order: the concatenation of the
key's bindings from OLDEST to newest. In the program these lists are the
arrays reachable for that key (the current `folders[key]` plus any arrays
shadowed by line 117 but kept alive as earlier tree nodes' children). -/
def bucketsJoined : Folders → Str → List RenderedNode
  | [], _ => []
  | (k', v) :: rest, k =>
    if k' = k then bucketsJoined rest k ++ v else bucketsJoined rest k

/-! ### Concrete instances used by the witnesses and counterexamples -/

/-- Plain full-build environment: no lazy node, identity transform, icon
preference off, no submodules. -/
def envD : Env where
  transform := id
  node := none
  repo := ⟨"user".data, "repo".data, "main".data, none⟩
  encodedBranch := "main".data
  nodePrefix := "octotree".data
  storeIcons := false
  fileIconClass := fun _ => none
  protocol := "https:".data
  submodules := fun _ => none

/-- A child entry whose parent directory has no bucket. -/
def entryAB : TreeEntry := ⟨"a/b".data, .blob, none, none, none⟩

/-- A directory entry. -/
def entryDirA : TreeEntry := ⟨"a".data, .tree, none, none, none⟩

/-- Patch data: removed, with a previous path, counts ABSENT. -/
def patchRemovedNone : PatchInfo :=
  ⟨.removed, some "old/path.txt".data, none, none, none, none⟩

/-- Patch data: removed, with a previous path, counts present and ZERO. -/
def patchRemovedZero : PatchInfo :=
  ⟨.removed, some "old/path.txt".data, none, some 0, some 0, none⟩

/-- Entry carrying `patchRemovedNone`. -/
def entryC6None : TreeEntry := ⟨"file.txt".data, .blob, none, none, some patchRemovedNone⟩

/-- Entry carrying `patchRemovedZero`. -/
def entryC6Zero : TreeEntry := ⟨"file.txt".data, .blob, none, none, some patchRemovedZero⟩

/-- Leading fragment of an additions badge. -/
def additionsBadgeMark : Str := "<span class=\"text-green\">+".data

/-- Leading fragment of a deletions badge. -/
def deletionsBadgeMark : Str := "<span class=\"text-red\">-".data

/-- The removed badge carrying its tooltip. -/
def removedBadge (prev : Str) : Str :=
  "<span class=\"text-red\" title=\"".data ++ prev ++ "\">removed</span>".data

/-- The submodule URL of the C9 scenario. -/
def subUrlC9 : Str := "git://github.com/owner/repo.git".data

/-- Environment whose submodule map sends `p` to `subUrlC9` and whose page
protocol is `proto`. -/
def envC9 (proto p : Str) : Env :=
  { envD with protocol := proto, submodules := fun q => if q = p then some subUrlC9 else none }

/-! ## Theorems -/

/-- C3. The error classifier maps status 0 to `'Error: Connection error'`,
409 to `'Error: Empty repository'`, 401 to `'Error: Invalid token'`, 404 to
`'Error: Private repository'`, 403 with the rate-limit-exhausted response
header present to `'Error: API limit exceeded'`, and 403 without it to
`'Error: Forbidden'` — for every header string, request-header value,
status text and token-message formatter. The decision is a single dispatch
on the (mutually exclusive) status value with the rate-limit sub-case
tested inside the 403 branch, which is exactly the claimed priority order:
409/206/401/404 are decided before the 403 sub-cases and the rate-limit
sub-case before generic 403. -/
theorem c3_error_classifier (gitm : Nat → Str → Str) (respH reqH st : Str) :
    (handleError gitm 0 respH reqH st).1 = "Error: Connection error".data ∧
    (handleError gitm 409 respH reqH st).1 = "Error: Empty repository".data ∧
    (handleError gitm 401 respH reqH st).1 = "Error: Invalid token".data ∧
    (handleError gitm 404 respH reqH st).1 = "Error: Private repository".data ∧
    (hasSub respH rateLimitMark = true →
      (handleError gitm 403 respH reqH st).1 = "Error: API limit exceeded".data) ∧
    (hasSub respH rateLimitMark = false →
      (handleError gitm 403 respH reqH st).1 = "Error: Forbidden".data) := by
  refine ⟨?_, ?_, ?_, ?_, fun h => ?_, fun h => ?_⟩
  · simp [handleError]
  · simp [handleError]
  · simp [handleError]
  · simp [handleError]
  · simp [handleError, h]
  · simp [handleError, h]

/-- C3 witness: the classifier evaluated at concrete 403 inputs with and
without the rate-limit header. -/
theorem c3_witness :
    (handleError (fun _ _ => []) 403 "X-RateLimit-Remaining: 0".data [] []).1 =
      "Error: API limit exceeded".data ∧
    (handleError (fun _ _ => []) 403 "X-RateLimit-Remaining: 41".data [] []).1 =
      "Error: Forbidden".data := by
  have h1 := c3_error_classifier (fun _ _ => []) "X-RateLimit-Remaining: 0".data [] []
  have h2 := c3_error_classifier (fun _ _ => []) "X-RateLimit-Remaining: 41".data [] []
  exact ⟨h1.2.2.2.2.1 (by decide), h2.2.2.2.2.2 (by decide)⟩

/-- C4 counterexample: the claim says that for an unmapped status both the
`error` field and the `message` field equal the raw status text; but line
234 wraps the error as `` `Error: ${error}` ``, so at status 500 with status
text `"Internal Server Error"` the returned error field is
`"Error: Internal Server Error"`, not the raw status text (the message field
does equal it). -/
theorem c4_counterexample :
    (handleError (fun _ _ => []) 500 [] [] "Internal Server Error".data).1 ≠
      "Internal Server Error".data ∧
    (handleError (fun _ _ => []) 500 [] [] "Internal Server Error".data).1 =
      "Error: Internal Server Error".data := by
  decide

/-- C4 amended: for every status outside the mapped set
{0, 409, 206, 401, 404, 403}, the `message` field equals the supplied raw
status text and the `error` field equals the status text prefixed with
`"Error: "`. -/
theorem c4_amended_fallback (gitm : Nat → Str → Str) (respH reqH st : Str) (status : Nat)
    (h0 : status ≠ 0) (h409 : status ≠ 409) (h206 : status ≠ 206) (h401 : status ≠ 401)
    (h404 : status ≠ 404) (h403 : status ≠ 403) :
    (handleError gitm status respH reqH st).1 = "Error: ".data ++ st ∧
    (handleError gitm status respH reqH st).2 = st := by
  simp [handleError, h0, h409, h206, h401, h404, h403]

/-- C4 witness: the fallback evaluated at status 500. -/
theorem c4_witness :
    (handleError (fun _ _ => []) 500 [] [] "Internal Server Error".data).1 =
      "Error: ".data ++ "Internal Server Error".data ∧
    (handleError (fun _ _ => []) 500 [] [] "Internal Server Error".data).2 =
      "Internal Server Error".data :=
  c4_amended_fallback (fun _ _ => []) [] [] "Internal Server Error".data 500
    (by decide) (by decide) (by decide) (by decide) (by decide) (by decide)

/-- C5. Status 206 does yield the error `'Error: Repo too large'`, and the
message does give the partial-content guidance; but the suggestion to
uncheck the "Load entire tree at once" option never reaches the message:
on lines 192-194 of the source the sentence
`'If you frequently work with this repository, go to the ... and uncheck
the "Load entire tree at once" option.'` is an expression statement of its
own (the assignment to `message` already ended with `;` on line 191), so
the delivered message is only the first sentence and contains no "uncheck"
suggestion. This theorem evaluates the (faithfully modelled) code at the
failing input, status 206. -/
theorem c5_message_truncated :
    (handleError (fun _ _ => []) 206 [] [] []).1 = "Error: Repo too large".data ∧
    (handleError (fun _ _ => []) 206 [] [] []).2 =
      "This repository is too large to load in a single request. ".data ∧
    hasSub (handleError (fun _ _ => []) 206 [] [] []).2 "uncheck".data = false := by
  decide

/-- C2 counterexample: with no lazy node, an entry list consisting of the
single entry `{path: 'a/b', type: 'blob'}` — whose parent-directory key
`'a'` has no bucket — makes the build fail (`folders['a'].push` is
`undefined.push`, a thrown `TypeError`, modelled as `none`): the missing
parent bucket is NOT auto-created and processing DOES fail. -/
theorem c2_counterexample : buildSeq envD [entryAB] = none := rfl

/-- C2 amended: during a full (non-lazy) build, processing an entry fails
precisely when its parent-directory key has no bucket at that moment; no
bucket is ever auto-created for a missing parent. (A parent's bucket exists
only if it is the root bucket or was registered when the parent directory's
own `tree` entry was processed EARLIER in the list, so a child appearing
before its parent's entry aborts the build.) -/
theorem c2_missing_parent_fails (env : Env) (F : Folders) (e : TreeEntry)
    (h : env.node = none) :
    step env F e = none ↔ getVal F (parentOf (prep env e).path) = none := by
  have hroute : routeKey env e = parentOf (prep env e).path := by
    simp [routeKey, h]
  rw [step, hroute]
  cases hg : getVal F (parentOf (prep env e).path) with
  | none => simp
  | some bucket =>
    simp
    split <;> simp

/-- C2 witness: the amended statement applied to the concrete missing-parent
configuration `folders = {'': []}`, entry `a/b`. -/
theorem c2_witness : step envD initFolders entryAB = none :=
  (c2_missing_parent_fails envD initFolders entryAB rfl).mpr rfl

/-- C6 counterexample: for the entry `file.txt` with
`patch = {action: 'removed', previous: 'old/path.txt'}` and `additions` /
`deletions` ABSENT, the rendered text DOES contain an additions badge and a
deletions badge — reading `+undefined` / `-undefined` — because the guards
on lines 98 and 101 are `!== 0`, which `undefined` passes; so the claim that
the absent case suppresses the badges fails on the code. -/
theorem c6_counterexample :
    hasSub (renderItem envD entryC6None).text additionsBadgeMark = true ∧
    hasSub (renderItem envD entryC6None).text deletionsBadgeMark = true := by
  decide

/-- C6 amended, for EVERY entry: whenever the rendered text is the escaped
name followed by the patch span — i.e. for every blob or tree entry, and
for every commit entry except one whose nonempty GitHub submodule URL makes
line 152 overwrite the display text with the two submodule links — an entry
whose patch has action `removed` and a previous path renders as the escaped
leaf name followed by a patch span that begins with the tooltip-carrying
removed badge and the file-count badge, and then: when `additions` and
`deletions` are present and zero, NOTHING else (both badges suppressed);
when they are absent, the literal `+undefined` and `-undefined` badges. -/
theorem c6_removed_badge_rendering (env : Env) (path prev : Str) (fc dId : Option Nat)
    (sha url : Option Str) (ty : EntryType)
    (hty : ty = EntryType.commit → ∀ u, env.submodules path = some u →
      u = [] ∨ hasSub u "github.com".data = false) :
    (renderItem env ⟨path, ty, sha, url,
        some ⟨.removed, some prev, fc, some 0, some 0, dId⟩⟩).text =
      htmlEscape (leafOf path) ++ "<span class=\"patch\">".data ++
        (removedBadge prev ++ filesBadge ⟨.removed, some prev, fc, some 0, some 0, dId⟩) ++
        "</span>".data ∧
    (renderItem env ⟨path, ty, sha, url,
        some ⟨.removed, some prev, fc, none, none, dId⟩⟩).text =
      htmlEscape (leafOf path) ++ "<span class=\"patch\">".data ++
        (removedBadge prev ++ filesBadge ⟨.removed, some prev, fc, none, none, dId⟩ ++
          "<span class=\"text-green\">+undefined</span>".data ++
          "<span class=\"text-red\">-undefined</span>".data) ++
        "</span>".data := by
  cases ty with
  | blob =>
    constructor <;>
      simp [renderItem, patchBadges, actionBadge, additionsBadge, deletionsBadge,
        removedBadge, jsStr, List.append_assoc]
  | tree =>
    constructor <;>
      simp [renderItem, patchBadges, actionBadge, additionsBadge, deletionsBadge,
        removedBadge, jsStr, List.append_assoc]
  | commit =>
    have h := hty rfl
    cases hsub : env.submodules path with
    | none =>
      constructor <;>
        simp [renderItem, hsub, patchBadges, actionBadge, additionsBadge, deletionsBadge,
          removedBadge, jsStr, List.append_assoc]
    | some u =>
      rcases h u hsub with hu | hu
      · subst hu
        constructor <;>
          simp [renderItem, hsub, patchBadges, actionBadge, additionsBadge, deletionsBadge,
            removedBadge, jsStr, List.append_assoc]
      · by_cases hemp : u = ([] : Str)
        · subst hemp
          constructor <;>
            simp [renderItem, hsub, patchBadges, actionBadge, additionsBadge, deletionsBadge,
              removedBadge, jsStr, List.append_assoc]
        · constructor <;>
            simp [renderItem, hsub, hemp, hu, patchBadges, actionBadge, additionsBadge,
              deletionsBadge, removedBadge, jsStr, List.append_assoc]

/-- C6 witness: the amended statement applied at the concrete entry
`file.txt` with previous path `old/path.txt` and both counts zero. -/
theorem c6_witness :
    (renderItem envD entryC6Zero).text =
      htmlEscape (leafOf "file.txt".data) ++ "<span class=\"patch\">".data ++
        (removedBadge "old/path.txt".data ++ filesBadge patchRemovedZero) ++
        "</span>".data := by
  have h := c6_removed_badge_rendering envD "file.txt".data "old/path.txt".data
    none none none none EntryType.blob (fun hc => by cases hc)
  exact h.1

/-- Processing the remaining entries chunkwise equals one sequential fold:
the `setTimeout` between chunks passes no data, so the chunk recursion is a
reassociation of the same fold. -/
theorem runChunks_eq_foldlM (env : Env) :
    ∀ (n : Nat) (rem : List TreeEntry) (F : Folders), rem.length ≤ n →
      runChunks env rem F = rem.foldlM (step env) F := by
  intro n
  induction n with
  | zero =>
    intro rem F h
    have hnil : rem = [] := List.eq_nil_of_length_eq_zero (Nat.le_zero.mp h)
    subst hnil
    rw [runChunks]
    simp [CHUNK]
  | succ n ih =>
    intro rem F h
    rw [runChunks]
    by_cases hlt : CHUNK < rem.length
    · have hsplit : rem.take CHUNK ++ rem.drop CHUNK = rem := List.take_append_drop _ _
      cases hres : (rem.take CHUNK).foldlM (step env) F with
      | none =>
        conv_rhs => rw [← hsplit]
        rw [List.foldlM_append]
        simp [hres]
      | some G =>
        have hlen : (rem.drop CHUNK).length ≤ n := by
          rw [List.length_drop]
          simp only [CHUNK] at hlt ⊢
          omega
        simp only [hlt, if_true]
        rw [ih (rem.drop CHUNK) G hlen]
        conv_rhs => rw [← hsplit]
        rw [List.foldlM_append]
        simp [hres]
    · have htake : rem.take CHUNK = rem := List.take_of_length_le (Nat.le_of_not_lt hlt)
      rw [htake]
      cases hres : rem.foldlM (step env) F with
      | none => simp
      | some G => simp [hlt]

/-- C7. Batching is observationally transparent: for EVERY entry list (in
particular of lengths 0, 1, 300, 301 and 1000), the chunked processing
(fixed batches of `CHUNK = 300` with a yield between batches) produces
exactly the same final bucket map — and hence the same delivered root
bucket `folders['']` — as one sequential pass over all entries; the batch
size is not observable in the output. -/
theorem c7_chunking_transparent (env : Env) (entries : List TreeEntry) :
    buildChunked env entries = buildSeq env entries :=
  runChunks_eq_foldlM env entries.length entries initFolders (Nat.le_refl _)

/-- Plain-string `replace` leaves its input unchanged when the needle does
not occur in it. -/
theorem replaceFirst_self_of_not_hasSub (hay needle repl : Str) :
    hasSub hay needle = false → replaceFirst hay needle repl = hay := by
  induction hay with
  | nil => intro _; rfl
  | cons c rest ih =>
    intro h
    rw [hasSub, Bool.or_eq_false_iff] at h
    rw [replaceFirst, if_neg (by simp [h.1]), ih h.2]

/-- C9. For a `commit`-type entry at path `p` whose submodule URL is
`git://github.com/owner/repo.git`, normalization yields the web URL
`<page-protocol>//github.com/owner/repo` (scheme taken from the current
page protocol, trailing `.git` stripped), that URL becomes the entry's
href, and the display text is two link fragments: the (escaped) submodule
name linking to that URL, and the first 7 characters of the pinned sha
linking to `<that URL>/tree/<sha>`. The hypothesis rules out a pathological
page protocol that would itself contain `github.com:` and so trip the
`replace('github.com:', 'github.com/')` step. -/
theorem c9_submodule_rendering (proto p sha : Str)
    (hproto : hasSub (proto ++ "//github.com/owner/repo.git".data) "github.com:".data = false) :
    (renderItem (envC9 proto p) ⟨p, .commit, some sha, none, none⟩).a_attr =
      some ⟨proto ++ "//github.com/owner/repo".data, none, none⟩ ∧
    (renderItem (envC9 proto p) ⟨p, .commit, some sha, none, none⟩).text =
      "<a href=\"".data ++ (proto ++ "//github.com/owner/repo".data) ++
        "\" class=\"jstree-anchor\">".data ++ htmlEscape (leafOf p) ++ "</a>".data ++
        "<span>@ </span>".data ++
        "<a href=\"".data ++ (proto ++ "//github.com/owner/repo".data) ++ "/tree/".data ++
        sha ++ "\" class=\"jstree-anchor\">".data ++ sha.take 7 ++ "</a>".data := by
  have h1 : schemeRewrite proto subUrlC9 = proto ++ "//github.com/owner/repo.git".data := by
    rw [schemeRewrite, if_pos (by decide), List.append_assoc]
    congr 1
  have h2 : replaceFirst (proto ++ "//github.com/owner/repo.git".data)
      "github.com:".data "github.com/".data = proto ++ "//github.com/owner/repo.git".data :=
    replaceFirst_self_of_not_hasSub _ _ _ hproto
  have h3 : stripGitSuffix (proto ++ "//github.com/owner/repo.git".data) =
      proto ++ "//github.com/owner/repo".data := by
    have hrev : (proto ++ "//github.com/owner/repo.git".data).reverse =
        't' :: 'i' :: 'g' :: '.' :: ("//github.com/owner/repo".data.reverse ++ proto.reverse) := by
      rw [List.reverse_append]
      rw [show ("//github.com/owner/repo.git".data.reverse : Str)
            = 't' :: 'i' :: 'g' :: '.' :: "//github.com/owner/repo".data.reverse from by decide]
      simp
    rw [stripGitSuffix, hrev]
    have hdot : isRegexDot '.' = true := by decide
    simp [hdot]
  have hmu : normalizeModuleUrl proto subUrlC9 = proto ++ "//github.com/owner/repo".data := by
    rw [normalizeModuleUrl, h1, h2, h3]
  have hne : ¬ (subUrlC9 = ([] : Str)) := by decide
  have hgh : hasSub subUrlC9 "github.com".data = true := by decide
  constructor <;> simp [renderItem, envC9, envD, hne, hgh, hmu, jsStr]

/-- C9 witness: the concrete rendering at protocol `https:`, path
`mods/sub`, sha `0123456789abcdef`. -/
theorem c9_witness :
    (renderItem (envC9 "https:".data "mods/sub".data)
        ⟨"mods/sub".data, .commit, some "0123456789abcdef".data, none, none⟩).a_attr =
      some ⟨"https://github.com/owner/repo".data, none, none⟩ := by
  have h := c9_submodule_rendering "https:".data "mods/sub".data "0123456789abcdef".data
    (by decide)
  rw [h.1]
  decide

/-- Equation lemma of `parseLoop`: a plain character passes through. -/
theorem pl_chr (c : Char) (ts : List UriToken) :
    parseLoop none (UriToken.chr c :: ts) = (parseLoop none ts).map (c :: ·) := rfl

theorem pl_byte1 (b : Nat) (ts : List UriToken) (h : b < 128) :
    parseLoop none (UriToken.byte b :: ts) = (parseLoop none ts).map (Char.ofNat b :: ·) := by
  simp only [parseLoop]
  rw [if_pos h]

theorem pl_start2 (b : Nat) (ts : List UriToken) (h1 : ¬ b < 128) (h2 : 192 ≤ b ∧ b < 224) :
    parseLoop none (UriToken.byte b :: ts) = parseLoop (some (b - 192, 1, 128)) ts := by
  simp only [parseLoop]
  rw [if_neg h1, if_pos h2]

theorem pl_cont_last (acc minCp b : Nat) (ts : List UriToken)
    (h1 : 128 ≤ b ∧ b < 192)
    (h2 : minCp ≤ acc * 64 + (b - 128) ∧ acc * 64 + (b - 128) < 1114112 ∧
      ¬(55296 ≤ acc * 64 + (b - 128) ∧ acc * 64 + (b - 128) ≤ 57343)) :
    parseLoop (some (acc, 1, minCp)) (UriToken.byte b :: ts) =
      (parseLoop none ts).map (Char.ofNat (acc * 64 + (b - 128)) :: ·) := by
  simp only [parseLoop, if_true]
  rw [if_pos h1, if_pos h2]

theorem pl_cont_mid (acc need minCp b : Nat) (ts : List UriToken)
    (h1 : 128 ≤ b ∧ b < 192) (h2 : ¬ need = 1) :
    parseLoop (some (acc, need, minCp)) (UriToken.byte b :: ts) =
      parseLoop (some (acc * 64 + (b - 128), need - 1, minCp)) ts := by
  simp only [parseLoop]
  rw [if_pos h1, if_neg h2]

theorem ut_chr (c : Char) (h : ¬ c = '%') (s : Str) :
    uriTokens (c :: s) = (uriTokens s).map (UriToken.chr c :: ·) := by
  rw [uriTokens]
  rw [if_neg h]

theorem hexVal_hexDigitChar (d : Nat) (h : d < 16) :
    hexVal (hexDigitChar d) = some d := by
  interval_cases d <;> decide

theorem uriTokens_byteHex (b : Nat) (hb : b < 256) (s : Str) :
    uriTokens (byteHex b ++ s) = (uriTokens s).map (UriToken.byte b :: ·) := by
  have h1 : hexVal (hexDigitChar (b / 16)) = some (b / 16) := hexVal_hexDigitChar _ (by omega)
  have h2 : hexVal (hexDigitChar (b % 16)) = some (b % 16) := hexVal_hexDigitChar _ (by omega)
  have hb' : 16 * (b / 16) + b % 16 = b := Nat.div_add_mod b 16
  show uriTokens ('%' :: hexDigitChar (b / 16) :: hexDigitChar (b % 16) :: s) = _
  rw [uriTokens, if_pos rfl, uriPercent, h1, h2]
  simp [hb']

theorem char_valid_ranges (c : Char) :
    c.toNat < 55296 ∨ (57343 < c.toNat ∧ c.toNat < 1114112) := by
  have h := c.valid
  rcases h with h | h
  · exact Or.inl h
  · exact Or.inr h

theorem pl_start3 (b : Nat) (ts : List UriToken) (h1 : ¬ b < 128)
    (h2 : ¬(192 ≤ b ∧ b < 224)) (h3 : 224 ≤ b ∧ b < 240) :
    parseLoop none (UriToken.byte b :: ts) = parseLoop (some (b - 224, 2, 2048)) ts := by
  simp only [parseLoop]
  rw [if_neg h1, if_neg h2, if_pos h3]

theorem pl_start4 (b : Nat) (ts : List UriToken) (h1 : ¬ b < 128)
    (h2 : ¬(192 ≤ b ∧ b < 224)) (h3 : ¬(224 ≤ b ∧ b < 240)) (h4 : 240 ≤ b ∧ b < 248) :
    parseLoop none (UriToken.byte b :: ts) = parseLoop (some (b - 240, 3, 65536)) ts := by
  simp only [parseLoop]
  rw [if_neg h1, if_neg h2, if_neg h3, if_pos h4]

theorem decode_encodeChar (c : Char) (s : Str) :
    decodeURIComponent (encodeChar c ++ s) = (decodeURIComponent s).map (c :: ·) := by
  by_cases hu : isUnreservedChar c
  · have hperc : ¬ c = '%' := by
      intro h
      subst h
      exact absurd hu (by decide)
    have henc : encodeChar c ++ s = c :: s := by simp [encodeChar, hu]
    rw [henc, decodeURIComponent, decodeURIComponent, ut_chr c hperc]
    cases hts : uriTokens s with
    | none => simp
    | some ts => simp [parseUriTokens, pl_chr]
  · have hval := char_valid_ranges c
    by_cases r1 : c.toNat < 128
    · have henc : encodeChar c ++ s = byteHex c.toNat ++ s := by
        simp [encodeChar, hu, utf8Bytes, r1]
      rw [henc, decodeURIComponent, decodeURIComponent, uriTokens_byteHex _ (by omega) s]
      cases hts : uriTokens s with
      | none => simp
      | some ts => simp [parseUriTokens, pl_byte1 _ _ r1]
    · by_cases r2 : c.toNat < 2048
      · have henc : encodeChar c ++ s =
            byteHex (192 + c.toNat / 64) ++ (byteHex (128 + c.toNat % 64) ++ s) := by
          simp [encodeChar, hu, utf8Bytes, r1, r2]
        rw [henc, decodeURIComponent, decodeURIComponent,
          uriTokens_byteHex _ (by omega) _, uriTokens_byteHex _ (by omega) s]
        cases hts : uriTokens s with
        | none => simp
        | some ts =>
          simp only [Option.map_some', Option.some_bind, parseUriTokens]
          have e1 := pl_start2 (192 + c.toNat / 64)
            (UriToken.byte (128 + c.toNat % 64) :: ts) (by omega) (by omega)
          rw [e1, show 192 + c.toNat / 64 - 192 = c.toNat / 64 from by omega]
          have e2 := pl_cont_last (c.toNat / 64) 128 (128 + c.toNat % 64) ts
            (by omega) (by omega)
          rw [e2, show c.toNat / 64 * 64 + (128 + c.toNat % 64 - 128) = c.toNat from by omega,
            Char.ofNat_toNat]
      · by_cases r3 : c.toNat < 65536
        · have henc : encodeChar c ++ s =
              byteHex (224 + c.toNat / 4096) ++ (byteHex (128 + c.toNat / 64 % 64) ++
                (byteHex (128 + c.toNat % 64) ++ s)) := by
            simp [encodeChar, hu, utf8Bytes, r1, r2, r3]
          rw [henc, decodeURIComponent, decodeURIComponent,
            uriTokens_byteHex _ (by omega) _, uriTokens_byteHex _ (by omega) _,
            uriTokens_byteHex _ (by omega) s]
          cases hts : uriTokens s with
          | none => simp
          | some ts =>
            simp only [Option.map_some', Option.some_bind, parseUriTokens]
            have e1 := pl_start3 (224 + c.toNat / 4096)
              (UriToken.byte (128 + c.toNat / 64 % 64) :: UriToken.byte (128 + c.toNat % 64) :: ts)
              (by omega) (by omega) (by omega)
            rw [e1, show 224 + c.toNat / 4096 - 224 = c.toNat / 4096 from by omega]
            have e2 := pl_cont_mid (c.toNat / 4096) 2 2048 (128 + c.toNat / 64 % 64)
              (UriToken.byte (128 + c.toNat % 64) :: ts) (by omega) (by omega)
            rw [e2, show c.toNat / 4096 * 64 + (128 + c.toNat / 64 % 64 - 128) =
              c.toNat / 4096 * 64 + c.toNat / 64 % 64 from by omega,
              show (2 : Nat) - 1 = 1 from by norm_num]
            have e3 := pl_cont_last (c.toNat / 4096 * 64 + c.toNat / 64 % 64) 2048
              (128 + c.toNat % 64) ts (by omega) (by omega)
            rw [e3, show (c.toNat / 4096 * 64 + c.toNat / 64 % 64) * 64 +
              (128 + c.toNat % 64 - 128) = c.toNat from by omega, Char.ofNat_toNat]
        · have r4 : c.toNat < 1114112 := by omega
          have henc : encodeChar c ++ s =
              byteHex (240 + c.toNat / 262144) ++ (byteHex (128 + c.toNat / 4096 % 64) ++
                (byteHex (128 + c.toNat / 64 % 64) ++ (byteHex (128 + c.toNat % 64) ++ s))) := by
            simp [encodeChar, hu, utf8Bytes, r1, r2, r3]
          rw [henc, decodeURIComponent, decodeURIComponent,
            uriTokens_byteHex _ (by omega) _, uriTokens_byteHex _ (by omega) _,
            uriTokens_byteHex _ (by omega) _, uriTokens_byteHex _ (by omega) s]
          cases hts : uriTokens s with
          | none => simp
          | some ts =>
            simp only [Option.map_some', Option.some_bind, parseUriTokens]
            have e1 := pl_start4 (240 + c.toNat / 262144)
              (UriToken.byte (128 + c.toNat / 4096 % 64) :: UriToken.byte (128 + c.toNat / 64 % 64) ::
                UriToken.byte (128 + c.toNat % 64) :: ts)
              (by omega) (by omega) (by omega) (by omega)
            rw [e1, show 240 + c.toNat / 262144 - 240 = c.toNat / 262144 from by omega]
            have e2 := pl_cont_mid (c.toNat / 262144) 3 65536 (128 + c.toNat / 4096 % 64)
              (UriToken.byte (128 + c.toNat / 64 % 64) :: UriToken.byte (128 + c.toNat % 64) :: ts)
              (by omega) (by omega)
            rw [e2, show c.toNat / 262144 * 64 + (128 + c.toNat / 4096 % 64 - 128) =
              c.toNat / 262144 * 64 + c.toNat / 4096 % 64 from by omega,
              show (3 : Nat) - 1 = 2 from by norm_num]
            have e3 := pl_cont_mid (c.toNat / 262144 * 64 + c.toNat / 4096 % 64) 2 65536
              (128 + c.toNat / 64 % 64) (UriToken.byte (128 + c.toNat % 64) :: ts)
              (by omega) (by omega)
            rw [e3, show (c.toNat / 262144 * 64 + c.toNat / 4096 % 64) * 64 +
              (128 + c.toNat / 64 % 64 - 128) =
              (c.toNat / 262144 * 64 + c.toNat / 4096 % 64) * 64 + c.toNat / 64 % 64 from by omega,
              show (2 : Nat) - 1 = 1 from by norm_num]
            have e4 := pl_cont_last
              ((c.toNat / 262144 * 64 + c.toNat / 4096 % 64) * 64 + c.toNat / 64 % 64) 65536
              (128 + c.toNat % 64) ts (by omega) (by omega)
            rw [e4, show ((c.toNat / 262144 * 64 + c.toNat / 4096 % 64) * 64 + c.toNat / 64 % 64) *
              64 + (128 + c.toNat % 64 - 128) = c.toNat from by omega, Char.ofNat_toNat]

theorem decode_encode (s : Str) :
    decodeURIComponent (encodeURIComponent s) = some s := by
  induction s with
  | nil => rfl
  | cons c rest ih =>
    have h : encodeURIComponent (c :: rest) = encodeChar c ++ encodeURIComponent rest := by
      simp [encodeURIComponent]
    rw [h, decode_encodeChar, ih]
    rfl


theorem hexDigitChar_ne_slash (d : Nat) (h : d < 16) : hexDigitChar d ≠ '/' := by
  interval_cases d <;> decide

theorem utf8Bytes_lt (n : Nat) (hn : n < 1114112) : ∀ b ∈ utf8Bytes n, b < 256 := by
  intro b hb
  rw [utf8Bytes] at hb
  split at hb
  · simp at hb
    omega
  · split at hb
    · simp at hb
      rcases hb with h | h <;> omega
    · split at hb
      · simp at hb
        rcases hb with h | h | h <;> omega
      · simp at hb
        rcases hb with h | h | h | h <;> omega

theorem slash_not_mem_encodeChar (c : Char) : '/' ∉ encodeChar c := by
  intro hmem
  rw [encodeChar] at hmem
  by_cases hu : isUnreservedChar c
  · rw [if_pos hu] at hmem
    simp at hmem
    subst hmem
    exact absurd hu (by decide)
  · rw [if_neg hu] at hmem
    rw [List.mem_flatten] at hmem
    obtain ⟨l, hl, hcl⟩ := hmem
    rw [List.mem_map] at hl
    obtain ⟨b, hb, rfl⟩ := hl
    have hb256 : b < 256 := by
      rcases char_valid_ranges c with h | h
      · exact utf8Bytes_lt c.toNat (by omega) b hb
      · exact utf8Bytes_lt c.toNat (by omega) b hb
    rw [byteHex] at hcl
    simp only [List.mem_cons, List.not_mem_nil, or_false] at hcl
    rcases hcl with h | h | h
    · exact absurd h (by decide)
    · exact hexDigitChar_ne_slash (b / 16) (by omega) h.symm
    · exact hexDigitChar_ne_slash (b % 16) (by omega) h.symm

theorem slash_not_mem_encode (s : Str) : '/' ∉ encodeURIComponent s := by
  intro hmem
  rw [encodeURIComponent, List.mem_flatten] at hmem
  obtain ⟨l, hl, hcl⟩ := hmem
  rw [List.mem_map] at hl
  obtain ⟨c, _, rfl⟩ := hl
  exact slash_not_mem_encodeChar c hcl

/-- C8. The item href of a non-patch entry percent-encodes each
`/`-separated path segment independently and rejoins with literal `/`
(lines 130-133): for EVERY path — spaces, percent signs and arbitrary
Unicode included — percent-decoding each segment of the encoded path
yields exactly the original segments, and no slash ever appears inside an
encoded segment (the separators of the encoded path are exactly the
original separators). -/
theorem c8_segment_encoding_roundtrip (path : Str) :
    ((encodedPathOf path).splitOn '/').map decodeURIComponent =
      (path.splitOn '/').map some ∧
    ∀ seg ∈ path.splitOn '/', '/' ∉ encodeURIComponent seg := by
  have hsegs : ∀ l ∈ (path.splitOn '/').map encodeURIComponent, '/' ∉ l := by
    intro l hl
    rw [List.mem_map] at hl
    obtain ⟨seg, _, rfl⟩ := hl
    exact slash_not_mem_encode seg
  have h0 : path.splitOn '/' ≠ [] := by
    rw [List.splitOn]
    exact List.splitOnP_ne_nil _ _
  have hne : (path.splitOn '/').map encodeURIComponent ≠ [] := by
    intro h
    exact h0 (List.map_eq_nil_iff.mp h)
  constructor
  · rw [encodedPathOf, List.splitOn_intercalate _ '/' hsegs hne, List.map_map]
    exact List.map_congr_left (fun seg _ => decode_encode seg)
  · intro seg _
    exact slash_not_mem_encode seg

/-- C8 witness: the round-trip evaluated on the concrete path `a b/c%d`. -/
theorem c8_witness :
    ((encodedPathOf "a b/c%d".data).splitOn '/').map decodeURIComponent =
      ("a b/c%d".data.splitOn '/').map some :=
  (c8_segment_encoding_roundtrip "a b/c%d".data).1

/-- C10 amended: the suffix-stripping step `replace(/.git$/, '')` removes
the last four characters of any URL ending in one character followed by the
three letters `git`, for every such trailing character EXCEPT a JS regex
line terminator (`\n`, `\r`, U+2028, U+2029), which the pattern's dot does
not match. -/
theorem c10_dot_matches_any (s : Str) (c : Char) (h : isRegexDot c = true) :
    stripGitSuffix (s ++ c :: "git".data) = s := by
  have hrev : (s ++ c :: "git".data).reverse = 't' :: 'i' :: 'g' :: c :: s.reverse := by
    simp [List.reverse_append]
  unfold stripGitSuffix
  rw [hrev]
  simp [h]

/-- C10 counterexample: the claim quantifies over ANY single character
before `git`, but the regex dot does not match a line terminator, so a URL
ending in `"\ngit"` keeps its last four characters. -/
theorem c10_counterexample :
    stripGitSuffix "repo\ngit".data = "repo\ngit".data ∧
    stripGitSuffix "repo\ngit".data ≠ "repo".data := by
  decide

/-- C10 witness: a URL ending in `-git` (not the literal `.git`) also loses
its last four characters. -/
theorem c10_witness : stripGitSuffix "repo-git".data = "repo".data := by
  rw [show ("repo-git".data : Str) = "repo".data ++ '-' :: "git".data from by decide]
  exact c10_dot_matches_any "repo".data '-' (by decide)


theorem step_some {env : Env} {F F' : Folders} {e : TreeEntry}
    (h : step env F e = some F') :
    ∃ bucket, getVal F (routeKey env e) = some bucket ∧
      F' = (if registers env e then
        ((prep env e).path, []) :: setVal F (routeKey env e) (bucket ++ [procItem env e])
      else setVal F (routeKey env e) (bucket ++ [procItem env e])) := by
  rw [step] at h
  cases hb : getVal F (routeKey env e) with
  | none => rw [hb] at h; simp at h
  | some bucket =>
    rw [hb] at h
    refine ⟨bucket, rfl, ?_⟩
    by_cases hreg : registers env e
    · rw [if_pos hreg]
      simp [hreg] at h
      exact h.symm
    · rw [if_neg hreg]
      simp [hreg] at h
      exact h.symm

theorem bucketsJoined_setVal_self (F : Folders) (key : Str)
    (bucket : List RenderedNode) (x : RenderedNode)
    (h : getVal F key = some bucket) :
    bucketsJoined (setVal F key (bucket ++ [x])) key = bucketsJoined F key ++ [x] := by
  induction F with
  | nil => simp [getVal] at h
  | cons kv rest ih =>
    obtain ⟨k', w⟩ := kv
    rw [setVal]
    by_cases hk : k' = key
    · rw [if_pos hk]
      rw [getVal, if_pos hk] at h
      have hw : w = bucket := by simpa using h
      subst hw
      simp [bucketsJoined, hk]
    · rw [if_neg hk]
      rw [getVal, if_neg hk] at h
      simp [bucketsJoined, hk, ih h]

theorem bucketsJoined_setVal_ne (F : Folders) (key k : Str) (v : List RenderedNode)
    (h : ¬ k = key) :
    bucketsJoined (setVal F key v) k = bucketsJoined F k := by
  induction F with
  | nil =>
    have hk : ¬ key = k := fun hk => h hk.symm
    simp [setVal, bucketsJoined, hk]
  | cons kv rest ih =>
    obtain ⟨k', w⟩ := kv
    rw [setVal]
    by_cases hk : k' = key
    · have hk2 : ¬ k' = k := fun hkk => h (hkk.symm.trans hk)
      rw [if_pos hk]
      simp [bucketsJoined, hk2]
    · rw [if_neg hk]
      by_cases hk2 : k' = k
      · simp [bucketsJoined, hk2, ih]
      · simp [bucketsJoined, hk2, ih]

theorem bucketsJoined_cons_empty (p : Str) (F : Folders) (k : Str) :
    bucketsJoined ((p, []) :: F) k = bucketsJoined F k := by
  rw [bucketsJoined]
  split <;> simp

theorem sumSizes_setVal (F : Folders) (key : Str) (bucket : List RenderedNode)
    (x : RenderedNode) (h : getVal F key = some bucket) :
    sumSizes (setVal F key (bucket ++ [x])) = sumSizes F + 1 := by
  induction F with
  | nil => simp [getVal] at h
  | cons kv rest ih =>
    obtain ⟨k', w⟩ := kv
    rw [setVal]
    by_cases hk : k' = key
    · rw [if_pos hk]
      rw [getVal, if_pos hk] at h
      have hw : w = bucket := by simpa using h
      subst hw
      simp [sumSizes]
      omega
    · rw [if_neg hk]
      rw [getVal, if_neg hk] at h
      simp [sumSizes] at ih ⊢
      rw [ih h]
      omega

theorem sumSizes_cons_empty (p : Str) (F : Folders) :
    sumSizes ((p, []) :: F) = sumSizes F := by
  simp [sumSizes]

/-- Invariant of the processing loop: after any prefix, every parent key's
pushed nodes (across all of that key's bucket generations, in push order)
are exactly the in-order renderings of the prefix entries routed to that
key, and the total number of pushed nodes equals the prefix length. No
hypothesis beyond success is needed: a bucket reset (line 117 on a
duplicate path) shadows the old array without dropping its nodes. -/
theorem buildSeq_inv (env : Env) :
    ∀ (entries done : List TreeEntry) (F0 F : Folders),
      (∀ k, bucketsJoined F0 k =
        (done.filter (fun e => routeKey env e = k)).map (procItem env)) →
      sumSizes F0 = done.length →
      entries.foldlM (step env) F0 = some F →
      (∀ k, bucketsJoined F k =
        ((done ++ entries).filter (fun e => routeKey env e = k)).map (procItem env)) ∧
      sumSizes F = (done ++ entries).length := by
  intro entries
  induction entries with
  | nil =>
    intro done F0 F h1 h2 h5
    simp only [List.foldlM_nil] at h5
    have hF : F0 = F := by simpa using h5
    subst hF
    rw [List.append_nil]
    exact ⟨h1, h2⟩
  | cons e rest ih =>
    intro done F0 F h1 h2 h5
    rw [List.foldlM_cons] at h5
    cases hstep : step env F0 e with
    | none =>
      rw [hstep] at h5
      simp at h5
    | some F1 =>
      rw [hstep] at h5
      have h5' : rest.foldlM (step env) F1 = some F := h5
      obtain ⟨bucket, hbucket, hF1⟩ := step_some hstep
      have hassoc : done ++ [e] ++ rest = done ++ e :: rest := by simp
      have hFm : ∀ k, bucketsJoined (setVal F0 (routeKey env e)
          (bucket ++ [procItem env e])) k =
          ((done ++ [e]).filter (fun e' => routeKey env e' = k)).map (procItem env) := by
        intro k
        rw [List.filter_append, List.map_append]
        by_cases hk : k = routeKey env e
        · subst hk
          rw [bucketsJoined_setVal_self F0 _ bucket _ hbucket, h1]
          simp
        · have hne : ¬ routeKey env e = k := fun hh => hk hh.symm
          rw [bucketsJoined_setVal_ne F0 _ k _ hk, h1]
          simp [hne]
      have inv1 : ∀ k, bucketsJoined F1 k =
          ((done ++ [e]).filter (fun e' => routeKey env e' = k)).map (procItem env) := by
        intro k
        by_cases hreg : registers env e
        · rw [if_pos hreg] at hF1
          rw [hF1, bucketsJoined_cons_empty]
          exact hFm k
        · rw [if_neg hreg] at hF1
          rw [hF1]
          exact hFm k
      have inv2 : sumSizes F1 = (done ++ [e]).length := by
        have hm : sumSizes (setVal F0 (routeKey env e) (bucket ++ [procItem env e])) =
            sumSizes F0 + 1 := sumSizes_setVal F0 _ bucket _ hbucket
        by_cases hreg : registers env e
        · rw [if_pos hreg] at hF1
          rw [hF1, sumSizes_cons_empty, hm, h2]
          simp
        · rw [if_neg hreg] at hF1
          rw [hF1, hm, h2]
          simp
      have hres := ih (done ++ [e]) F1 F inv1 inv2 h5'
      rw [hassoc] at hres
      exact hres

/-- C1. For EVERY entry list accepted by a single build invocation — i.e.
every build that completes and delivers a result rather than throwing on a
missing parent bucket, duplicate directory paths included — the rendered
nodes placed into buckets number exactly the input entries (none dropped,
none duplicated: a line-117 reset only shadows a bucket in the `folders`
object while its array stays aliased as the earlier tree node's children),
and under each parent key the pushed nodes are exactly the renderings of
the entries routed to that key, in input order. -/
theorem c1_entry_conservation (env : Env) (entries : List TreeEntry) (F : Folders)
    (hbuild : buildSeq env entries = some F) :
    sumSizes F = entries.length ∧
    ∀ k, bucketsJoined F k =
      (entries.filter (fun e => routeKey env e = k)).map (procItem env) := by
  have h1 : ∀ k, bucketsJoined initFolders k =
      (([] : List TreeEntry).filter (fun e => routeKey env e = k)).map (procItem env) := by
    intro k
    rw [initFolders, bucketsJoined]
    split <;> simp [bucketsJoined]
  have hres := buildSeq_inv env entries [] initFolders F h1 rfl hbuild
  rw [List.nil_append] at hres
  exact ⟨hres.2, hres.1⟩

/-- C1 witness: a concrete successful build WITH a duplicate tree path
(directory `a`, child `a/b`, directory `a` again — line 117 resets bucket
`a` on the third entry) still places exactly three rendered nodes into the
buckets, none lost to the reset. -/
theorem c1_witness :
    sumSizes ((buildSeq envD [entryDirA, entryAB, entryDirA]).getD []) = 3 := by
  have hs : (buildSeq envD [entryDirA, entryAB, entryDirA]).isSome = true := by decide
  obtain ⟨F, hF⟩ := Option.isSome_iff_exists.mp hs
  have h := c1_entry_conservation envD [entryDirA, entryAB, entryDirA] F hF
  rw [hF]
  simpa using h.1

end Octotree
